import Mathlib

/-!
Verification development for the vscode-q UI-integration layer:
the file-backed query-history store (`src/client/items/history.ts`)
and the status-bar manager (`src/client/modules/q-status-bar-manager.ts`).

The embedding models:
* the `History` record type;
* JavaScript `String.prototype.replace` with a string pattern, which
  replaces only the first occurrence;
* the file system as the contents of the two relevant paths (the current
  history file and the legacy history file), together with a log of the
  file-system operations an action performs;
* `HistoryTreeItem` with its `_parent` / `_children` fields, its
  constructor, `refresh`, `appendHistory` and `getChildren`;
* `JSON.parse` on the persisted history format (a platform builtin,
  modelled from the description of the file format in the spec);
* the status-bar widgets as visibility/text/color state.
-/

namespace VscodeQ

/-- The `History` record from `history.ts`: one completed query execution.
`time` is modelled as a natural number of seconds since the epoch
(the `Date` object abstracted). -/
structure History where
  uniqLabel : String
  time : Nat
  duration : Nat
  query : String
  errorMsg : String
  deriving DecidableEq, Repr

/-- JavaScript `String.prototype.replace` with a single-character string
pattern, as in `label.replace(comma, dash)`: only the FIRST occurrence of `pat`
is replaced by `rep`; later occurrences are untouched. -/
def jsReplaceFirstChar (pat rep : Char) : List Char → List Char
  | [] => []
  | c :: cs => if c = pat then rep :: cs else c :: jsReplaceFirstChar pat rep cs

/-- JavaScript `s.replace(pat, rep)` for a one-character string pattern. -/
def jsReplace (s : String) (pat rep : Char) : String :=
  ⟨jsReplaceFirstChar pat rep s.data⟩

/-- Two-digit zero padding, as used by `dayjs` format fields. -/
def pad2 (n : Nat) : String :=
  if n < 10 then "0" ++ toString n else toString n

/-- Models `dayjs(time).format` with pattern HH:mm:ss on a UTC
seconds-since-epoch timestamp. -/
def fmtHHmmss (t : Nat) : String :=
  pad2 (t / 3600 % 24) ++ ":" ++ pad2 (t / 60 % 60) ++ ":" ++ pad2 (t % 60)

/-- Models the full timestamp format used in the tooltip; the calendar part
is abstracted, the time-of-day part is faithful. -/
def fmtFull (t : Nat) : String :=
  "epoch-day " ++ toString (t / 86400) ++ " " ++ fmtHHmmss t ++ ".000"

/-- Models `MarkdownString.appendCodeblock(code, q)`. -/
def codeblockQ (code : String) : String :=
  "\n```q\n" ++ code ++ "\n```\n"

/-- The tooltip markdown appended after the server line: the time,
duration, and either the error or the query as a code block. -/
def tooltipRest (history : History) : String :=
  "- time: " ++ fmtFull history.time ++ "\n"
    ++ "- duration: " ++ toString history.duration ++ "\n"
    ++ (if history.errorMsg ≠ "" then "- error:" ++ codeblockQ history.errorMsg
        else "- query:" ++ codeblockQ history.query)

/-- The tooltip markdown built by the `HistoryTreeItem` constructor: the
comma-replaced server label followed by the remaining lines. -/
def tooltipOf (history : History) : String :=
  "- server: " ++ jsReplace history.uniqLabel ',' '-' ++ "\n" ++ tooltipRest history

/-- The tree label built by the `HistoryTreeItem` constructor:
the comma-replaced `uniqLabel`, a separator, and the formatted time. -/
def labelOf (history : History) : String :=
  jsReplace history.uniqLabel ',' '-' ++ " | " ++ fmtHHmmss history.time

/-- The `HistoryTreeItem` tree node class. `parent` models `_parent`
(`none` = JavaScript `null`, i.e. the root); `children` models `_children`.
Other fields are as assigned in the constructor. -/
inductive HistoryTreeItem : Type where
  | mk (label : String) (tooltip : String) (uniqLabel : String) (query : String)
       (time : Nat) (duration : Nat) (errorMsg : String)
       (parent : Option Unit) (children : List HistoryTreeItem)

def HistoryTreeItem.label : HistoryTreeItem → String
  | .mk l _ _ _ _ _ _ _ _ => l

def HistoryTreeItem.tooltip : HistoryTreeItem → String
  | .mk _ t _ _ _ _ _ _ _ => t

def HistoryTreeItem.uniqLabel : HistoryTreeItem → String
  | .mk _ _ u _ _ _ _ _ _ => u

def HistoryTreeItem.query : HistoryTreeItem → String
  | .mk _ _ _ q _ _ _ _ _ => q

def HistoryTreeItem.time : HistoryTreeItem → Nat
  | .mk _ _ _ _ t _ _ _ _ => t

def HistoryTreeItem.duration : HistoryTreeItem → Nat
  | .mk _ _ _ _ _ d _ _ _ => d

def HistoryTreeItem.errorMsg : HistoryTreeItem → String
  | .mk _ _ _ _ _ _ e _ _ => e

def HistoryTreeItem.parent : HistoryTreeItem → Option Unit
  | .mk _ _ _ _ _ _ _ p _ => p

def HistoryTreeItem.children : HistoryTreeItem → List HistoryTreeItem
  | .mk _ _ _ _ _ _ _ _ cs => cs

/-- The private `HistoryTreeItem` constructor: builds the label and tooltip,
copies the record fields verbatim, sets `_parent`, and leaves `_children`
at its initializer `[]`. -/
def mkHistoryTreeItem (history : History) (parent : Option Unit) : HistoryTreeItem :=
  .mk (labelOf history) (tooltipOf history) history.uniqLabel history.query
      history.time history.duration history.errorMsg parent []

/-- Replace the `_children` field (the assignment in `refresh`). -/
def HistoryTreeItem.withChildren (self : HistoryTreeItem) (cs : List HistoryTreeItem) :
    HistoryTreeItem :=
  match self with
  | .mk l t u q tm d e p _ => .mk l t u q tm d e p cs

/-- The file system, restricted to the two paths the store touches:
`historyPath` (current location) and `oldHistoryPath` (legacy location).
`none` = the file does not exist; `some s` = it exists with contents `s`. -/
structure FileSystem where
  historyFile : Option String
  oldHistoryFile : Option String
  deriving DecidableEq, Repr

/-- A file-system operation performed by `refresh`, for frame reasoning. -/
inductive FsOp : Type where
  /-- Models `fileExists(historyPath)`. -/
  | statCurrent
  /-- Models `fileExists(oldHistoryPath)`. -/
  | statLegacy
  /-- Models `fs.mkdir(path.dirname(historyPath), recursive)`. -/
  | mkdirCurrentDir
  /-- Models `fs.copyFile(oldHistoryPath, historyPath)`. -/
  | copyLegacyToCurrent
  /-- Models `fs.unlink(oldHistoryPath)`. -/
  | unlinkLegacy
  /-- Models `fs.writeFile(historyPath, s)`. -/
  | writeCurrent (s : String)
  /-- Models `fs.readFile(historyPath)`. -/
  | readCurrent
  deriving DecidableEq, Repr

/-- Whether an operation mutates the disk (as opposed to only reading it). -/
def FsOp.isMutation : FsOp → Bool
  | .statCurrent => false
  | .statLegacy => false
  | .mkdirCurrentDir => true
  | .copyLegacyToCurrent => true
  | .unlinkLegacy => true
  | .writeCurrent _ => true
  | .readCurrent => false

/-- Errors the store surfaces: `JSON.parse` throwing on malformed content,
or a file-system read failing. -/
inductive StoreError : Type where
  | parseError
  | ioError
  deriving DecidableEq, Repr


/-- Consume an expected literal prefix of the input, or fail. -/
def expectLit : List Char → List Char → Option (List Char)
  | [], input => some input
  | e :: es, c :: cs => if c = e then expectLit es cs else none
  | _ :: _, [] => none

/-- Read the characters of a JSON string up to the closing quote.  Escape
sequences are not modelled: the fields the extension serializes contain
none. -/
def takeStringChars : List Char → Option (List Char × List Char)
  | [] => none
  | c :: cs =>
    if c = '"' then some ([], cs)
    else match takeStringChars cs with
      | some (s, rest) => some (c :: s, rest)
      | none => none

/-- Parse a JSON string literal. -/
def parseStringLit (input : List Char) : Option (String × List Char) :=
  match input with
  | '"' :: rest => (takeStringChars rest).map (fun p => (⟨p.1⟩, p.2))
  | _ => none

/-- Split a maximal run of decimal digits off the input. -/
def takeDigits : List Char → List Char × List Char
  | [] => ([], [])
  | c :: cs =>
    if c.isDigit then
      let p := takeDigits cs
      (c :: p.1, p.2)
    else ([], c :: cs)

/-- Parse a JSON (natural) number literal. -/
def parseNatLit (input : List Char) : Option (Nat × List Char) :=
  let p := takeDigits input
  if p.1 = [] then none
  else some (p.1.foldl (fun a c => a * 10 + (c.toNat - 48)) 0, p.2)

/-- Modelled from the spec: one object of the persisted history file, as
read by the platform `JSON.parse` (a builtin, not part of the two source
files).  The spec gives the format as a JSON object with fields
`uniqLabel` (string), `time`, `duration` (number), `query` and `errorMsg`
(strings); we model the compact serialization with the fields in
declaration order. -/
def parseHistoryObject (input : List Char) : Option (History × List Char) := do
  let r1 ← expectLit ("\x7b\"uniqLabel\":").data input
  let (u, r2) ← parseStringLit r1
  let r3 ← expectLit (",\"time\":").data r2
  let (t, r4) ← parseNatLit r3
  let r5 ← expectLit (",\"duration\":").data r4
  let (d, r6) ← parseNatLit r5
  let r7 ← expectLit (",\"query\":").data r6
  let (q, r8) ← parseStringLit r7
  let r9 ← expectLit (",\"errorMsg\":").data r8
  let (e, r10) ← parseStringLit r9
  let r11 ← expectLit ("\x7d").data r10
  some (⟨u, t, d, q, e⟩, r11)

/-- Parse the comma-separated objects of a non-empty JSON array, up to and
including the closing bracket.  The fuel argument bounds the recursion by
the input length. -/
def parseItems : Nat → List Char → Option (List History × List Char)
  | 0, _ => none
  | fuel + 1, input => do
    let (h, rest) ← parseHistoryObject input
    match rest with
    | ',' :: rest2 => do
      let (hs, r) ← parseItems fuel rest2
      some (h :: hs, r)
    | ']' :: rest2 => some ([h], rest2)
    | _ => none

/-- Modelled from the spec: `JSON.parse` applied to the history file and
typed as `History[]` — a platform builtin, not part of the two source
files.  The spec describes the persisted format as a UTF-8 JSON array of
history objects, most-recent-first.  Returns `none` where `JSON.parse`
would throw a `SyntaxError` (or the result would not be a history list). -/
def parseHistories (s : String) : Option (List History) :=
  match s.data with
  | '[' :: ']' :: rest => if rest = [] then some [] else none
  | '[' :: rest =>
    match parseItems (rest.length + 1) rest with
    | some (hs, []) => some hs
    | _ => none
  | _ => none

/-- The result of running `refresh` (or `appendHistory`): the updated
receiver, the file system afterwards, the log of file-system operations
performed, how many times `_onDidChangeTreeData.fire` ran, and the
exception propagated to the caller, if any. -/
structure RefreshOut where
  item : HistoryTreeItem
  fs : FileSystem
  ops : List FsOp
  eventsFired : Nat
  error : Option StoreError

/-- The tail of `refresh`: read the current history file, `JSON.parse` it,
rebuild `_children` from the parsed records (each new child gets the
current tree as parent), and fire the change event.  When the parse
throws, the exception propagates and `_children` is left unchanged. -/
def readParseAndFire (item : HistoryTreeItem) (fs : FileSystem) (ops : List FsOp) :
    RefreshOut :=
  match fs.historyFile with
  | none => ⟨item, fs, ops ++ [.readCurrent], 0, some .ioError⟩
  | some content =>
    match parseHistories content with
    | none => ⟨item, fs, ops ++ [.readCurrent], 0, some .parseError⟩
    | some histories =>
      ⟨item.withChildren (histories.map (fun h => mkHistoryTreeItem h (some ()))),
       fs, ops ++ [.readCurrent], 1, none⟩

/-- `HistoryTreeItem.refresh`: return immediately on a non-root item;
fire and return when `_children` is already non-empty; otherwise ensure
the current history file exists (creating the cache directory, then either
migrating the legacy file — copy and delete — or writing an empty list),
then read, parse and fire. -/
def refresh (item : HistoryTreeItem) (fs : FileSystem) : RefreshOut :=
  if (item.parent).isSome then ⟨item, fs, [], 0, none⟩
  else if item.children.length > 0 then ⟨item, fs, [], 1, none⟩
  else if fs.historyFile.isSome then
    readParseAndFire item fs [.statCurrent]
  else
    match fs.oldHistoryFile with
    | some c =>
      readParseAndFire item ⟨some c, none⟩
        [.statCurrent, .mkdirCurrentDir, .statLegacy, .copyLegacyToCurrent, .unlinkLegacy]
    | none =>
      readParseAndFire item ⟨some "[]", none⟩
        [.statCurrent, .mkdirCurrentDir, .statLegacy, .writeCurrent "[]"]

/-- The static `HistoryTreeItem.appendHistory`: unshift a freshly
constructed item onto `_children` of the current (root) history tree, then
call `refresh` on it. -/
def appendHistory (history : History) (item : HistoryTreeItem) (fs : FileSystem) :
    RefreshOut :=
  refresh (item.withChildren (mkHistoryTreeItem history (some ()) :: item.children)) fs

/-- Run a sequence of `appendHistory` calls in order, threading the tree
and the file system. -/
def appendAll (histories : List History) (item : HistoryTreeItem) (fs : FileSystem) :
    HistoryTreeItem × FileSystem :=
  match histories with
  | [] => (item, fs)
  | h :: hs =>
    let o := appendHistory h item fs
    appendAll hs o.item o.fs

/-- The singleton root built by `createHistoryTree`: a history record with
label `root` and a null parent.  `t0` abstracts the `new Date()` call. -/
def createHistoryTree (t0 : Nat) : HistoryTreeItem :=
  mkHistoryTreeItem ⟨"root", t0, 0, "", ""⟩ none

/-- The possible arguments of `getChildren`, whose parameter is an optional
`TreeItem`: absent, a `HistoryTreeItem` instance, or some other
`TreeItem`. -/
inductive GetChildrenArg : Type where
  | noArg
  | historyItem (it : HistoryTreeItem)
  | otherTreeItem

/-- `HistoryTreeItem.getChildren`: a `HistoryTreeItem` argument yields its
`_children`; any other present argument yields the empty list; no argument
yields the receiver's `_children`. -/
def getChildren (self : HistoryTreeItem) : GetChildrenArg → List HistoryTreeItem
  | .historyItem it => it.children
  | .otherTreeItem => []
  | .noArg => self.children

/-- The flat-tree invariant maintained by the store: every child of the
root has an empty `_children` list and a non-null `_parent`. -/
def flatTree (root : HistoryTreeItem) : Prop :=
  ∀ c ∈ root.children, c.children = [] ∧ c.parent = some ()

/-- One status-bar widget: its visibility and the properties the manager
assigns. -/
structure StatusBarItem where
  visible : Bool
  text : String
  color : String
  tooltip : String
  deriving DecidableEq, Repr

/-- The three widgets owned by `QStatusBarManager`. -/
structure QStatusBarManager where
  connStatusBar : StatusBarItem
  queryStatusBar : StatusBarItem
  unlimitedQueryStatusBar : StatusBarItem
  deriving DecidableEq, Repr

/-- `QStatusBarManager.updateQueryStatus`: show the querying widget when
the argument is true, hide it when false. -/
def updateQueryStatus (b : Bool) (m : QStatusBarManager) : QStatusBarManager :=
  if b then { m with queryStatusBar := { m.queryStatusBar with visible := true } }
  else { m with queryStatusBar := { m.queryStatusBar with visible := false } }

/-- `QStatusBarManager.updateUnlimitedQueryStatus`: hide the
unlimited-query widget when `isLimited` is true, show it when false. -/
def updateUnlimitedQueryStatus (isLimited : Bool) (m : QStatusBarManager) :
    QStatusBarManager :=
  if isLimited then
    { m with unlimitedQueryStatusBar := { m.unlimitedQueryStatusBar with visible := false } }
  else
    { m with unlimitedQueryStatusBar := { m.unlimitedQueryStatusBar with visible := true } }

/-- Modelled from the spec: the state the connection manager
(`QConnManager`, a collaborator outside the two source files) exposes — a
query-mode short code whose first character is displayed, and a
console-mode flag. -/
structure QConnManagerState where
  queryMode : String
  consoleMode : Bool
  deriving DecidableEq, Repr

/-- `QStatusBarManager.updateConnStatus`: set the connection widget text to
the first character of the query mode, a colon, and the comma-replaced
label (defaulting to a fixed fallback), and set the color from the
console-mode flag. -/
def updateConnStatus (cm : QConnManagerState) (label : Option String)
    (m : QStatusBarManager) : QStatusBarManager :=
  let text := String.mk (cm.queryMode.data.take 1) ++ ":"
    ++ jsReplace (label.getD "No Connection") ',' '-'
  if cm.consoleMode then
    { m with connStatusBar := { m.connStatusBar with text := text, color := "#FF79C6" } }
  else
    { m with connStatusBar := { m.connStatusBar with text := text, color := "#8BE9FD" } }

/-! Helper lemmas shared by the claim theorems. -/

theorem parent_withChildren (item : HistoryTreeItem) (cs : List HistoryTreeItem) :
    (item.withChildren cs).parent = item.parent := by
  cases item
  rfl

theorem children_withChildren (item : HistoryTreeItem) (cs : List HistoryTreeItem) :
    (item.withChildren cs).children = cs := by
  cases item
  rfl

theorem withChildren_withChildren (item : HistoryTreeItem) (a b : List HistoryTreeItem) :
    (item.withChildren a).withChildren b = item.withChildren b := by
  cases item
  rfl

theorem withChildren_children (item : HistoryTreeItem) :
    item.withChildren item.children = item := by
  cases item
  rfl

theorem parent_mkHistoryTreeItem (h : History) (p : Option Unit) :
    (mkHistoryTreeItem h p).parent = p := rfl

theorem children_mkHistoryTreeItem (h : History) (p : Option Unit) :
    (mkHistoryTreeItem h p).children = [] := rfl

theorem uniqLabel_mkHistoryTreeItem (h : History) (p : Option Unit) :
    (mkHistoryTreeItem h p).uniqLabel = h.uniqLabel := rfl

theorem refresh_root_cached (item : HistoryTreeItem) (fs : FileSystem)
    (h1 : item.parent = none) (h2 : item.children ≠ []) :
    refresh item fs = ⟨item, fs, [], 1, none⟩ := by
  simp [refresh, h1, List.length_pos.mpr h2]

theorem appendHistory_cached (h : History) (item : HistoryTreeItem) (fs : FileSystem)
    (hroot : item.parent = none) :
    appendHistory h item fs =
      ⟨item.withChildren (mkHistoryTreeItem h (some ()) :: item.children), fs, [], 1, none⟩ := by
  unfold appendHistory
  apply refresh_root_cached
  · rw [parent_withChildren]
    exact hroot
  · rw [children_withChildren]
    exact List.cons_ne_nil _ _

/-- C10: calling `refresh` on a non-root tree item (one whose `_parent` is
non-null) is a complete no-op: no file-system operation, no change event,
no error, and the item is unchanged. -/
theorem refresh_non_root_noop (item : HistoryTreeItem) (fs : FileSystem)
    (h : item.parent ≠ none) :
    refresh item fs = ⟨item, fs, [], 0, none⟩ := by
  cases hp : item.parent with
  | none => exact absurd hp h
  | some u => simp [refresh, hp]

theorem refresh_non_root_noop_witness :
    refresh (mkHistoryTreeItem ⟨"srv", 7, 3, "1+1", ""⟩ (some ())) ⟨some "xyz", some "w"⟩
      = ⟨mkHistoryTreeItem ⟨"srv", 7, 3, "1+1", ""⟩ (some ()), ⟨some "xyz", some "w"⟩, [], 0, none⟩ :=
  refresh_non_root_noop _ _ (by rw [parent_mkHistoryTreeItem]; exact fun hc => Option.noConfusion hc)

/-- C5: once the in-memory cache (`_children`) is non-empty, `refresh` on
the root returns it unchanged without any file-system access — whatever the
backing file now contains — and still fires exactly one change event. -/
theorem refresh_cache_stale (item : HistoryTreeItem) (fs : FileSystem)
    (hroot : item.parent = none) (hne : item.children ≠ []) :
    refresh item fs = ⟨item, fs, [], 1, none⟩ :=
  refresh_root_cached item fs hroot hne

theorem refresh_cache_stale_witness :
    refresh ((createHistoryTree 0).withChildren [mkHistoryTreeItem ⟨"srv", 7, 3, "1+1", ""⟩ (some ())])
        ⟨some "externally changed", none⟩
      = ⟨(createHistoryTree 0).withChildren [mkHistoryTreeItem ⟨"srv", 7, 3, "1+1", ""⟩ (some ())],
         ⟨some "externally changed", none⟩, [], 1, none⟩ :=
  refresh_cache_stale _ _
    (by rw [parent_withChildren]; rfl)
    (by rw [children_withChildren]; exact List.cons_ne_nil _ _)

/-- C4: `appendHistory` performs no disk access at all: the file system is
returned byte-for-byte unchanged with an empty operation log, exactly one
change event fires, and only the in-memory children gain the new item at
the front. -/
theorem appendHistory_no_disk_write (h : History) (item : HistoryTreeItem) (fs : FileSystem)
    (hroot : item.parent = none) :
    (appendHistory h item fs).fs = fs ∧
    (appendHistory h item fs).ops = [] ∧
    (appendHistory h item fs).eventsFired = 1 ∧
    (appendHistory h item fs).error = none ∧
    (appendHistory h item fs).item.children
      = mkHistoryTreeItem h (some ()) :: item.children := by
  rw [appendHistory_cached h item fs hroot]
  exact ⟨rfl, rfl, rfl, rfl, children_withChildren _ _⟩

theorem appendHistory_no_disk_write_witness :
    (appendHistory ⟨"srv", 7, 3, "1+1", ""⟩ (createHistoryTree 0) ⟨some "[]", none⟩).fs
      = ⟨some "[]", none⟩ :=
  (appendHistory_no_disk_write ⟨"srv", 7, 3, "1+1", ""⟩ (createHistoryTree 0)
    ⟨some "[]", none⟩ rfl).1

/-- C9: `updateUnlimitedQueryStatus` has inverted sense — the
unlimited-query widget is hidden exactly when `isLimited` is true — and
`updateQueryStatus` shows the querying widget exactly when its argument is
true. -/
theorem update_status_visibility (isLimited b : Bool) (m : QStatusBarManager) :
    (updateUnlimitedQueryStatus isLimited m).unlimitedQueryStatusBar.visible = !isLimited ∧
    (updateQueryStatus b m).queryStatusBar.visible = b := by
  constructor
  · cases isLimited <;> simp [updateUnlimitedQueryStatus]
  · cases b <;> simp [updateQueryStatus]

theorem appendAll_root (rs : List History) (item : HistoryTreeItem) (fs : FileSystem)
    (hroot : item.parent = none) :
    appendAll rs item fs =
      (item.withChildren
        (rs.reverse.map (fun h => mkHistoryTreeItem h (some ())) ++ item.children), fs) := by
  induction rs generalizing item with
  | nil =>
    simp [appendAll, withChildren_children]
  | cons h hs ih =>
    unfold appendAll
    rw [appendHistory_cached h item fs hroot]
    rw [ih _ (by rw [parent_withChildren]; exact hroot)]
    simp [withChildren_withChildren, children_withChildren]

/-- C3: starting from the empty root store, a sequence of `appendHistory`
calls with records r1..rN leaves the in-memory sequence (which `load`
yields) in most-recent-first order [rN, ..., r1]; a `load` (`refresh`)
afterwards returns exactly that cached sequence. -/
theorem append_most_recent_first (rs : List History) (t0 : Nat) (fs : FileSystem) :
    (appendAll rs (createHistoryTree t0) fs).1.children
      = rs.reverse.map (fun h => mkHistoryTreeItem h (some ())) ∧
    (rs ≠ [] →
      refresh (appendAll rs (createHistoryTree t0) fs).1 (appendAll rs (createHistoryTree t0) fs).2
        = ⟨(appendAll rs (createHistoryTree t0) fs).1,
           (appendAll rs (createHistoryTree t0) fs).2, [], 1, none⟩) := by
  rw [appendAll_root rs (createHistoryTree t0) fs rfl]
  constructor
  · rw [children_withChildren]
    simp [createHistoryTree, mkHistoryTreeItem, HistoryTreeItem.children]
  · intro hne
    apply refresh_root_cached
    · rw [parent_withChildren]
      rfl
    · rw [children_withChildren]
      simp [createHistoryTree, mkHistoryTreeItem, HistoryTreeItem.children, hne]

theorem append_most_recent_first_witness :
    (appendAll [⟨"s1", 1, 2, "q1", ""⟩, ⟨"s2", 3, 4, "q2", "e"⟩]
        (createHistoryTree 0) ⟨none, none⟩).1.children
      = [mkHistoryTreeItem ⟨"s2", 3, 4, "q2", "e"⟩ (some ()),
         mkHistoryTreeItem ⟨"s1", 1, 2, "q1", ""⟩ (some ())] ∧
    refresh (appendAll [⟨"s1", 1, 2, "q1", ""⟩, ⟨"s2", 3, 4, "q2", "e"⟩]
          (createHistoryTree 0) ⟨none, none⟩).1
        (appendAll [⟨"s1", 1, 2, "q1", ""⟩, ⟨"s2", 3, 4, "q2", "e"⟩]
          (createHistoryTree 0) ⟨none, none⟩).2
      = ⟨(appendAll [⟨"s1", 1, 2, "q1", ""⟩, ⟨"s2", 3, 4, "q2", "e"⟩]
            (createHistoryTree 0) ⟨none, none⟩).1,
         (appendAll [⟨"s1", 1, 2, "q1", ""⟩, ⟨"s2", 3, 4, "q2", "e"⟩]
            (createHistoryTree 0) ⟨none, none⟩).2, [], 1, none⟩ :=
  ⟨((append_most_recent_first [⟨"s1", 1, 2, "q1", ""⟩, ⟨"s2", 3, 4, "q2", "e"⟩] 0
      ⟨none, none⟩).1).trans rfl,
   (append_most_recent_first [⟨"s1", 1, 2, "q1", ""⟩, ⟨"s2", 3, 4, "q2", "e"⟩] 0
      ⟨none, none⟩).2 (List.cons_ne_nil _ _)⟩

/-- C6: when neither the current nor the legacy history file exists,
`refresh` on the fresh root creates the current file with contents that
parse to the empty list, leaves the in-memory children empty, and raises
no error. -/
theorem refresh_cold_start_empty (t0 : Nat) :
    (refresh (createHistoryTree t0) ⟨none, none⟩).fs.historyFile = some "[]" ∧
    parseHistories "[]" = some [] ∧
    (refresh (createHistoryTree t0) ⟨none, none⟩).item.children = [] ∧
    (refresh (createHistoryTree t0) ⟨none, none⟩).error = none ∧
    (refresh (createHistoryTree t0) ⟨none, none⟩).fs.oldHistoryFile = none := by
  refine ⟨?_, by decide, ?_, ?_, ?_⟩ <;>
    simp [refresh, createHistoryTree, mkHistoryTreeItem, HistoryTreeItem.parent,
      HistoryTreeItem.children, HistoryTreeItem.withChildren, readParseAndFire,
      parseHistories]

/-- C8: when the current history file exists but does not parse, `refresh`
on the empty root store propagates a parse error to the caller, fires no
change event, performs no disk mutation, and leaves the item (in
particular `_children`) unchanged. -/
theorem refresh_parse_error_propagates (item : HistoryTreeItem) (s : String)
    (oldf : Option String) (hroot : item.parent = none) (hempty : item.children = [])
    (hbad : parseHistories s = none) :
    refresh item ⟨some s, oldf⟩
      = ⟨item, ⟨some s, oldf⟩, [.statCurrent, .readCurrent], 0, some .parseError⟩ := by
  simp [refresh, hroot, hempty, readParseAndFire, hbad]

theorem refresh_parse_error_propagates_witness :
    refresh (createHistoryTree 0) ⟨some "not json", some "w"⟩
      = ⟨createHistoryTree 0, ⟨some "not json", some "w"⟩,
         [.statCurrent, .readCurrent], 0, some .parseError⟩ :=
  refresh_parse_error_propagates (createHistoryTree 0) "not json" (some "w") rfl rfl (by decide)

theorem readParseAndFire_success (item : HistoryTreeItem) (C : String)
    (oldf : Option String) (ops : List FsOp) (l : List History)
    (hparse : parseHistories C = some l) :
    readParseAndFire item ⟨some C, oldf⟩ ops =
      ⟨item.withChildren (l.map fun h => mkHistoryTreeItem h (some ())),
       ⟨some C, oldf⟩, ops ++ [.readCurrent], 1, none⟩ := by
  simp [readParseAndFire, hparse]

theorem refresh_migration_step (C : String) (item : HistoryTreeItem)
    (hroot : item.parent = none) (hempty : item.children = []) :
    refresh item ⟨none, some C⟩ =
      readParseAndFire item ⟨some C, none⟩
        [.statCurrent, .mkdirCurrentDir, .statLegacy, .copyLegacyToCurrent, .unlinkLegacy] := by
  simp [refresh, hroot, hempty]

theorem refresh_root_empty_read (item : HistoryTreeItem) (C : String) (oldf : Option String)
    (hroot : item.parent = none) (hempty : item.children = []) :
    refresh item ⟨some C, oldf⟩ = readParseAndFire item ⟨some C, oldf⟩ [.statCurrent] := by
  simp [refresh, hroot, hempty]

/-- C1: with the current history file absent and the legacy file holding
content `C` (which parses to `l`), one `refresh` of the fresh root copies
`C` to the current location, removes the legacy file, and succeeds; a
second `refresh` raises no error, performs no disk mutation, and changes
neither the file system nor the tree. -/
theorem refresh_migration_idempotent (C : String) (l : List History) (t0 : Nat)
    (hparse : parseHistories C = some l) :
    (refresh (createHistoryTree t0) ⟨none, some C⟩).fs.historyFile = some C ∧
    (refresh (createHistoryTree t0) ⟨none, some C⟩).fs.oldHistoryFile = none ∧
    (refresh (createHistoryTree t0) ⟨none, some C⟩).error = none ∧
    (refresh (refresh (createHistoryTree t0) ⟨none, some C⟩).item
             (refresh (createHistoryTree t0) ⟨none, some C⟩).fs).error = none ∧
    (refresh (refresh (createHistoryTree t0) ⟨none, some C⟩).item
             (refresh (createHistoryTree t0) ⟨none, some C⟩).fs).fs
      = (refresh (createHistoryTree t0) ⟨none, some C⟩).fs ∧
    (refresh (refresh (createHistoryTree t0) ⟨none, some C⟩).item
             (refresh (createHistoryTree t0) ⟨none, some C⟩).fs).ops.filter
        (fun op => op.isMutation) = [] ∧
    (refresh (refresh (createHistoryTree t0) ⟨none, some C⟩).item
             (refresh (createHistoryTree t0) ⟨none, some C⟩).fs).item
      = (refresh (createHistoryTree t0) ⟨none, some C⟩).item := by
  rw [refresh_migration_step C (createHistoryTree t0) rfl rfl,
    readParseAndFire_success _ _ _ _ l hparse]
  refine ⟨rfl, rfl, rfl, ?_⟩
  rcases eq_or_ne l [] with hl | hl
  · subst hl
    rw [refresh_root_empty_read _ C none (by rw [parent_withChildren]; rfl)
        (by rw [children_withChildren]; rfl),
      readParseAndFire_success _ _ _ _ [] hparse]
    exact ⟨rfl, rfl, rfl, by rw [withChildren_withChildren]⟩
  · rw [refresh_root_cached _ _ (by rw [parent_withChildren]; rfl)
      (by rw [children_withChildren]; simp [hl])]
    exact ⟨rfl, rfl, rfl, rfl⟩

theorem refresh_migration_idempotent_witness :
    (refresh (createHistoryTree 0) ⟨none, some "[]"⟩).fs.historyFile = some "[]" ∧
    (refresh (createHistoryTree 0) ⟨none, some "[]"⟩).fs.oldHistoryFile = none :=
  ⟨(refresh_migration_idempotent "[]" [] 0 (by decide)).1,
   (refresh_migration_idempotent "[]" [] 0 (by decide)).2.1⟩

theorem jsReplaceFirstChar_split (pat rep : Char) (l1 l2 : List Char)
    (hno : pat ∉ l1) :
    jsReplaceFirstChar pat rep (l1 ++ pat :: l2) = l1 ++ rep :: l2 := by
  induction l1 with
  | nil => simp [jsReplaceFirstChar]
  | cons c cs ih =>
    have hcne : c ≠ pat := fun hc => hno (hc ▸ List.mem_cons_self c cs)
    have hstep : jsReplaceFirstChar pat rep ((c :: cs) ++ pat :: l2)
        = c :: jsReplaceFirstChar pat rep (cs ++ pat :: l2) := by
      simp [jsReplaceFirstChar, hcne]
    rw [hstep, ih (fun hm => hno (List.mem_cons_of_mem c hm)), List.cons_append]

/-- C2 counterexample: for the record label with two commas the rendered
tree label keeps the second comma (only the first is replaced), and the
connection status text does the same — refuting that EVERY comma is
replaced. -/
theorem comma_replacement_counterexample :
    labelOf ⟨"a,b,c", 0, 0, "", ""⟩ = "a-b,c | 00:00:00" ∧
    ',' ∈ (labelOf ⟨"a,b,c", 0, 0, "", ""⟩).data ∧
    (updateConnStatus ⟨"q", false⟩ (some "a,b,c")
        ⟨⟨true, "", "", ""⟩, ⟨true, "", "", ""⟩, ⟨true, "", "", ""⟩⟩).connStatusBar.text
      = "q:a-b,c" := by
  refine ⟨by decide, by decide, ?_⟩
  simp [updateConnStatus]
  decide

/-- C2 (amended): in every rendered context — the tree label, the tooltip
server line, and the connection status text — exactly the FIRST comma of
the record label is replaced by a dash (later commas are kept), while the
stored `uniqLabel` field retains the original label unchanged. -/
theorem comma_first_occurrence_normalized (h : History) (p : Option Unit)
    (cm : QConnManagerState) (m : QStatusBarManager) (l1 l2 : List Char)
    (hsplit : h.uniqLabel.data = l1 ++ ',' :: l2) (hno : ',' ∉ l1) :
    (mkHistoryTreeItem h p).uniqLabel = h.uniqLabel ∧
    (jsReplace h.uniqLabel ',' '-').data = l1 ++ '-' :: l2 ∧
    (mkHistoryTreeItem h p).label.data
      = (l1 ++ '-' :: l2) ++ (" | " ++ fmtHHmmss h.time).data ∧
    (mkHistoryTreeItem h p).tooltip.data
      = "- server: ".data ++ (l1 ++ '-' :: l2) ++ ("\n" ++ tooltipRest h).data ∧
    (updateConnStatus cm (some h.uniqLabel) m).connStatusBar.text.data
      = (String.mk (cm.queryMode.data.take 1) ++ ":").data ++ (l1 ++ '-' :: l2) := by
  have hrep : (jsReplace h.uniqLabel ',' '-').data = l1 ++ '-' :: l2 := by
    show jsReplaceFirstChar ',' '-' h.uniqLabel.data = l1 ++ '-' :: l2
    rw [hsplit, jsReplaceFirstChar_split ',' '-' l1 l2 hno]
  refine ⟨uniqLabel_mkHistoryTreeItem h p, hrep, ?_, ?_, ?_⟩
  · show (labelOf h).data = _
    rw [labelOf, String.data_append, String.data_append, String.data_append, hrep,
      List.append_assoc]
  · show (tooltipOf h).data = _
    simp only [tooltipOf, String.data_append, hrep, List.append_assoc]
  · cases hcm : cm.consoleMode <;>
      simp only [updateConnStatus, hcm, Bool.false_eq_true, if_false, if_true,
        Option.getD_some, String.data_append, hrep]

theorem comma_first_occurrence_normalized_witness :
    (jsReplace "a,b,c" ',' '-').data = ['a'] ++ '-' :: ['b', ',', 'c'] :=
  (comma_first_occurrence_normalized ⟨"a,b,c", 0, 0, "", ""⟩ (some ()) ⟨"q", false⟩
    ⟨⟨true, "", "", ""⟩, ⟨true, "", "", ""⟩, ⟨true, "", "", ""⟩⟩
    ['a'] ['b', ',', 'c'] (by decide) (by decide)).2.1

theorem flatTree_withChildren_map (item : HistoryTreeItem) (l : List History) :
    flatTree (item.withChildren (l.map fun h => mkHistoryTreeItem h (some ()))) := by
  intro c hc
  rw [children_withChildren] at hc
  obtain ⟨h, _, rfl⟩ := List.mem_map.mp hc
  exact ⟨rfl, rfl⟩

theorem readParseAndFire_item_cases (item : HistoryTreeItem) (fs : FileSystem)
    (ops : List FsOp) :
    (readParseAndFire item fs ops).item = item ∨
    ∃ l : List History, (readParseAndFire item fs ops).item
        = item.withChildren (l.map fun h => mkHistoryTreeItem h (some ())) := by
  unfold readParseAndFire
  split
  · exact Or.inl rfl
  · split
    · exact Or.inl rfl
    · exact Or.inr ⟨_, rfl⟩

theorem refresh_item_cases (item : HistoryTreeItem) (fs : FileSystem) :
    (refresh item fs).item = item ∨
    ∃ l : List History, (refresh item fs).item
        = item.withChildren (l.map fun h => mkHistoryTreeItem h (some ())) := by
  unfold refresh
  split
  · exact Or.inl rfl
  · split
    · exact Or.inl rfl
    · split
      · exact readParseAndFire_item_cases _ _ _
      · split
        · exact readParseAndFire_item_cases _ _ _
        · exact readParseAndFire_item_cases _ _ _

theorem flatTree_refresh (item : HistoryTreeItem) (fs : FileSystem)
    (hflat : flatTree item) : flatTree (refresh item fs).item := by
  rcases refresh_item_cases item fs with heq | ⟨l, heq⟩
  · rw [heq]
    exact hflat
  · rw [heq]
    exact flatTree_withChildren_map item l

theorem flatTree_appendHistory (h : History) (item : HistoryTreeItem) (fs : FileSystem)
    (hflat : flatTree item) : flatTree (appendHistory h item fs).item := by
  unfold appendHistory
  apply flatTree_refresh
  intro c hc
  rw [children_withChildren] at hc
  rcases List.mem_cons.mp hc with rfl | hm
  · exact ⟨rfl, rfl⟩
  · exact hflat c hm

/-- C7: on a flat root store, `getChildren` with no argument or with the
root itself returns exactly the in-memory record sequence (the one `load`
yields), while `getChildren` on any non-root node — a child of the root, a
freshly constructed item, or a foreign tree item — returns the empty
sequence; moreover `refresh` and `appendHistory` preserve flatness, so the
hypothesis is an invariant of the store. -/
theorem getChildren_flat_equivalence (root : HistoryTreeItem) (fs : FileSystem)
    (_hroot : root.parent = none) (hflat : flatTree root) :
    getChildren root .noArg = root.children ∧
    getChildren root (.historyItem root) = root.children ∧
    (∀ c ∈ root.children, getChildren root (.historyItem c) = []) ∧
    getChildren root .otherTreeItem = [] ∧
    (∀ h : History, getChildren root (.historyItem (mkHistoryTreeItem h (some ()))) = []) ∧
    flatTree (refresh root fs).item ∧
    (∀ h : History, flatTree (appendHistory h root fs).item) ∧
    getChildren (refresh root fs).item .noArg = (refresh root fs).item.children := by
  refine ⟨rfl, rfl, ?_, rfl, ?_, flatTree_refresh root fs hflat,
    fun h => flatTree_appendHistory h root fs hflat, rfl⟩
  · intro c hc
    exact (hflat c hc).1
  · intro h
    exact children_mkHistoryTreeItem h (some ())

theorem getChildren_flat_equivalence_witness :
    getChildren (createHistoryTree 0) GetChildrenArg.noArg = (createHistoryTree 0).children :=
  (getChildren_flat_equivalence (createHistoryTree 0) ⟨none, none⟩ rfl
    (by intro c hc; simp [createHistoryTree, mkHistoryTreeItem, HistoryTreeItem.children] at hc)).1

end VscodeQ
